import Mathlib

/-!
Verification of the value-range abstract domain
(`torch/utils/_sympy/value_ranges.py`), the gradcheck driver
(`torch/autograd/gradcheck.py`), the inclusive scan reference semantics
(`torch/_higher_order_ops/scan.py`), the CUDA-graph while-loop node builder
(`torch/_higher_order_ops/cudagraph_conditional_nodes.py`) and the symbol
prefix table (`torch/utils/_sympy/symbol.py`), as a shallow embedding.

Numeric bounds in `value_ranges.py` are constant sympy expressions over the
extended reals; the embedding models them as rationals extended with the two
infinities (`ERat`), which covers every operation the analysed rules perform
(field operations, floor, min/max, integer powers).  Boolean bounds are
modelled by `Bool` with the order `false <= true`.
-/

/-- Extended rationals: the constant numeric sympy values used as interval
bounds, `-oo`, finite rationals, and `+oo`. -/
inductive ERat where
  | bot : ERat
  | fin (q : ℚ) : ERat
  | top : ERat
deriving DecidableEq, Repr

/-- The order on extended rationals (`sympy`'s `<=` on constant numbers). -/
def ERat.ble : ERat → ERat → Bool
  | .bot, _ => true
  | _, .top => true
  | .fin a, .fin b => decide (a ≤ b)
  | .top, _ => false
  | .fin _, .bot => false

/-- Strict order on extended rationals, as the negation of the reverse `ble`
(the order is total). -/
def ERat.blt (a b : ERat) : Bool := !(ERat.ble b a)

/-- Minimum of two extended rationals (`sympy.Min` on constants). -/
def ERat.emin (a b : ERat) : ERat := if ERat.ble a b then a else b

/-- Maximum of two extended rationals (`sympy.Max` on constants). -/
def ERat.emax (a b : ERat) : ERat := if ERat.ble a b then b else a

/-- Finiteness test, `sympy`'s `is_finite` on constant numbers. -/
def ERat.isFinite : ERat → Bool
  | .fin _ => true
  | _ => false

/-- Integrality test, the `is_integer` check used by `pow`. -/
def ERat.isIntB : ERat → Bool
  | .fin q => decide (q.den = 1)
  | _ => false

/-- Negation of an extended rational. -/
def ERat.eneg : ERat → ERat
  | .bot => .top
  | .fin q => .fin (-q)
  | .top => .bot

/-- Reciprocal `1 / y` on extended rationals, as evaluated by sympy inside
`reciprocal`: `1 / oo = 1 / -oo = 0`.  The finite case is only reached with a
nonzero bound (the caller has excluded `0` from the range). -/
def ERat.erecip : ERat → ERat
  | .bot => .fin 0
  | .fin q => .fin q⁻¹
  | .top => .fin 0

deriving instance DecidableEq for Except

/-- A bound of a `ValueRanges`: either a constant numeric sympy expression or
a sympy boolean (`is_bool` ranges). -/
inductive VRBound where
  | num (x : ERat) : VRBound
  | boolv (b : Bool) : VRBound
deriving DecidableEq, Repr

/-- Errors raised by the Python code: `ValueRangeError` for an inverted
interval, `AssertionError` for the `assert` statements (kind mismatches and
the `nan` check in `simple_sympify`).  `unmodelled` marks evaluation paths
whose sympy result is irrational and therefore leaves the rational model;
no theorem below depends on such a path. -/
inductive VRError where
  | valueRangeError : VRError
  | assertionError : VRError
  | unmodelled : VRError
deriving DecidableEq, Repr

/-- The boolean order used by `sympy_generic_le`: the only failing case is
`True <= False`. -/
def boolLe (a b : Bool) : Bool := !(a && !b)

/-- The generic order on bounds, `sympy_generic_le`.  Mixed kinds fail an
`assert` in the source; the embedding returns `false` there (the validating
constructor reports the mixed case as an `assertionError` separately). -/
def VRBound.ble : VRBound → VRBound → Bool
  | .num a, .num b => ERat.ble a b
  | .boolv a, .boolv b => boolLe a b
  | _, _ => false

/-- Kind agreement between two bounds (`is_bool` consistency). -/
def VRBound.sameKind : VRBound → VRBound → Bool
  | .num _, .num _ => true
  | .boolv _, .boolv _ => true
  | _, _ => false

/-- An interval of the abstract domain: the two stored bounds of the frozen
dataclass `ValueRanges`. -/
structure ValueRanges where
  lower : VRBound
  upper : VRBound
deriving DecidableEq, Repr

/-- The validating constructor `ValueRanges.__init__`: `sympy_generic_le`
first asserts that the two bounds have the same kind (`AssertionError` on a
mixed pair), then an inverted interval raises `ValueRangeError`; on success
the given bounds are stored unchanged. -/
def ValueRanges.mk? (lower upper : VRBound) : Except VRError ValueRanges :=
  if VRBound.sameKind lower upper then
    if VRBound.ble lower upper then
      Except.ok ⟨lower, upper⟩
    else
      Except.error VRError.valueRangeError
  else
    Except.error VRError.assertionError

/-- An interval is valid when it could have been produced by the validating
constructor: matching kinds and ordered bounds. -/
def ValueRanges.valid (r : ValueRanges) : Bool :=
  VRBound.sameKind r.lower r.upper && VRBound.ble r.lower r.upper

/-- The `is_bool` flag of an interval (derived from the lower bound, as in
`__init__`). -/
def ValueRanges.isBool (r : ValueRanges) : Bool :=
  match r.lower with
  | .boolv _ => true
  | .num _ => false

/-- The singleton test `is_singleton`: `lower == upper`. -/
def ValueRanges.isSingleton (r : ValueRanges) : Bool := r.lower == r.upper

/-- The top element `unknown() = (-oo, oo)`. -/
def ValueRanges.unknown : ValueRanges := ⟨.num .bot, .num .top⟩

/-- `wrap` of a numeric constant: the singleton interval. -/
def ValueRanges.wrapNum (x : ERat) : ValueRanges := ⟨.num x, .num x⟩

/-- Numeric interval given by two extended-rational endpoints. -/
def ValueRanges.ofNum (l u : ERat) : ValueRanges := ⟨.num l, .num u⟩

/-- Membership of a numeric constant in an interval (`__contains__` with a
numeric element; a boolean interval would fail the `assert` inside
`sympy_generic_le`, which the callers below never do). -/
def ValueRanges.containsNum (r : ValueRanges) (x : ERat) : Bool :=
  VRBound.ble r.lower (.num x) && VRBound.ble (.num x) r.upper

/-- Containment of intervals: `r` is contained in `s` when every bound
respects the domain order (`s.lower <= r.lower` and `r.upper <= s.upper`). -/
def ValueRanges.subset (r s : ValueRanges) : Bool :=
  VRBound.ble s.lower r.lower && VRBound.ble r.upper s.upper

/-- The meet `__and__` (intersection).  `unknown()` is handled first as the
identity; otherwise the kinds must agree (an `assert` in the source), boolean
intervals intersect via `Or` of the lowers and `And` of the uppers, numeric
ones via `Max` of the lowers and `Min` of the uppers.  The constructor call
can raise `ValueRangeError` when the operands are disjoint. -/
def ValueRanges.and_ (a b : ValueRanges) : Except VRError ValueRanges :=
  if b = ValueRanges.unknown then Except.ok a
  else if a = ValueRanges.unknown then Except.ok b
  else
    match a.lower, a.upper, b.lower, b.upper with
    | .boolv al, .boolv au, .boolv bl, .boolv bu =>
        ValueRanges.mk? (.boolv (al || bl)) (.boolv (au && bu))
    | .num al, .num au, .num bl, .num bu =>
        ValueRanges.mk? (.num (ERat.emax al bl)) (.num (ERat.emin au bu))
    | _, _, _, _ => Except.error VRError.assertionError

/-- The join `__or__` (union).  `unknown()` absorbs; otherwise kinds must
agree, booleans join via `And` of the lowers and `Or` of the uppers, numeric
intervals via `Min` of the lowers and `Max` of the uppers. -/
def ValueRanges.or_ (a b : ValueRanges) : Except VRError ValueRanges :=
  if a = ValueRanges.unknown ∨ b = ValueRanges.unknown then
    Except.ok ValueRanges.unknown
  else
    match a.lower, a.upper, b.lower, b.upper with
    | .boolv al, .boolv au, .boolv bl, .boolv bu =>
        ValueRanges.mk? (.boolv (al && bl)) (.boolv (au || bu))
    | .num al, .num au, .num bl, .num bu =>
        ValueRanges.mk? (.num (ERat.emin al bl)) (.num (ERat.emax au bu))
    | _, _, _, _ => Except.error VRError.assertionError

/-- `increasing_map(x, fn)` on a numeric interval: apply `fn` to both ends in
order.  Non-numeric operands would have been rejected earlier by the callers
modelled here. -/
def ValueRanges.increasingMap (x : ValueRanges) (fn : ERat → ERat) :
    Except VRError ValueRanges :=
  match x.lower, x.upper with
  | .num l, .num u => ValueRanges.mk? (.num (fn l)) (.num (fn u))
  | _, _ => Except.error VRError.assertionError

/-- `decreasing_map(x, fn)` on a numeric interval: apply `fn` to both ends
and swap. -/
def ValueRanges.decreasingMap (x : ValueRanges) (fn : ERat → ERat) :
    Except VRError ValueRanges :=
  match x.lower, x.upper with
  | .num l, .num u => ValueRanges.mk? (.num (fn u)) (.num (fn l))
  | _, _ => Except.error VRError.assertionError

/-- `monotone_map(x, fn)`: apply `fn` to both ends and sort the two
results. -/
def ValueRanges.monotoneMap (x : ValueRanges) (fn : ERat → ERat) :
    Except VRError ValueRanges :=
  match x.lower, x.upper with
  | .num l, .num u =>
      ValueRanges.mk? (.num (ERat.emin (fn l) (fn u)))
        (.num (ERat.emax (fn l) (fn u)))
  | _, _ => Except.error VRError.assertionError

/-- `convex_min_zero_map(x, fn)` for convex `fn` with minimum at `0`: when
`0` is in the interval the result is `(0, max(fn(lower), fn(upper)))`,
otherwise it delegates to `monotone_map`. -/
def ValueRanges.convexMinZeroMap (x : ValueRanges) (fn : ERat → ERat) :
    Except VRError ValueRanges :=
  match x.lower, x.upper with
  | .num l, .num u =>
      if ValueRanges.containsNum ⟨.num l, .num u⟩ (.fin 0) then
        ValueRanges.mk? (.num (.fin 0)) (.num (ERat.emax (fn l) (fn u)))
      else
        ValueRanges.monotoneMap ⟨.num l, .num u⟩ fn
  | _, _ => Except.error VRError.assertionError

/-- Floor of a rational as an integer, computed by flooring division of the
numerator by the (positive) denominator. -/
def ratFloor (q : ℚ) : ℤ := Int.fdiv q.num q.den

/-- Python (and sympy) floor-modulo on rationals: `p - floor(p / q) * q`.
Only evaluated with `q ≠ 0`. -/
def pymod (p q : ℚ) : ℚ := p - (ratFloor (p / q) : ℚ) * q

/-- Evaluation of `x.lower % y.lower` inside `mod`'s singleton branch: sympy's
`Mod` on two finite constants is the floor-modulo; any infinite operand makes
`Mod` evaluate to `nan`, which the `assert e != sympy.nan` inside
`simple_sympify` turns into an `AssertionError` when wrapped. -/
def ERat.emodE : ERat → ERat → Except VRError ERat
  | .fin p, .fin q => Except.ok (.fin (pymod p q))
  | _, _ => Except.error VRError.assertionError

/-- The `mod(x, y)` rule of `SymPyValueRangeAnalysis`, in source order: first
the exact singleton branch (both singletons and `y != 0`), then
`y.lower <= 0` gives `unknown()`, otherwise `(0, y.upper)`.  Boolean operands
are outside the rule and fail an assertion. -/
def SymPyVRA.mod (x y : ValueRanges) : Except VRError ValueRanges :=
  match x.lower, x.upper, y.lower, y.upper with
  | .num xl, .num xu, .num yl, .num yu =>
      if xl = xu ∧ yl = yu ∧ yl ≠ .fin 0 then do
        let r ← ERat.emodE xl yl
        Except.ok (ValueRanges.wrapNum r)
      else if ERat.ble yl (.fin 0) then
        Except.ok ValueRanges.unknown
      else
        ValueRanges.mk? (.num (.fin 0)) (.num yu)
  | _, _, _, _ => Except.error VRError.assertionError

/-- `reciprocal(x)`: `unknown()` when `0` is in the interval, otherwise the
decreasing map of `1 / y`.  Returned as a plain interval because the
decreasing map cannot fail on a valid operand; it is expressed here through
the total endpoint reciprocal. -/
def SymPyVRA.reciprocal (x : ValueRanges) : ValueRanges :=
  match x.lower, x.upper with
  | .num l, .num u =>
      if ValueRanges.containsNum ⟨.num l, .num u⟩ (.fin 0) then
        ValueRanges.unknown
      else
        ⟨.num (ERat.erecip u), .num (ERat.erecip l)⟩
  | _, _ => ValueRanges.unknown

/-- Natural powers of an extended rational, used for the positive integer
exponent branches of `pow` (`(-oo)^n` is `oo` for even `n` and `-oo` for odd
`n`, `oo^n = oo`, and `x^0 = 1`). -/
def ERat.epowNat (x : ERat) (n : ℕ) : ERat :=
  if n = 0 then .fin 1
  else
    match x with
    | .fin q => .fin (q ^ n)
    | .top => .top
    | .bot => if n % 2 = 0 then .top else .bot

/-- Evaluation of `a ** b` for the singleton branch of `pow` (sympy constant
folding).  A finite base with an integer exponent is exact (with
`0 ** negative = zoo`, an infinite value); an infinite base with an integer
exponent follows sympy (`x ** 0 = 1`, positive exponents keep the infinity,
negative exponents give `0`).  Non-integer or infinite exponents produce
irrational or case-heavy sympy values outside the rational model and are
reported as `unmodelled`; no claim below exercises them. -/
def ERat.epowEval : ERat → ERat → Except VRError ERat
  | .fin x, .fin e =>
      if e.den = 1 then
        if 0 ≤ e.num then Except.ok (.fin (x ^ e.num.toNat))
        else if x = 0 then Except.ok .top
        else Except.ok (.fin (x ^ e.num))
      else Except.error VRError.unmodelled
  | .top, .fin e =>
      if e.den = 1 then
        if e.num = 0 then Except.ok (.fin 1)
        else if 0 < e.num then Except.ok .top
        else Except.ok (.fin 0)
      else Except.error VRError.unmodelled
  | .bot, .fin e =>
      if e.den = 1 then
        if e.num = 0 then Except.ok (.fin 1)
        else if 0 < e.num then
          Except.ok (if e.num % 2 = 0 then .top else .bot)
        else Except.ok (.fin 0)
      else Except.error VRError.unmodelled
  | _, _ => Except.error VRError.unmodelled

/-- Increasing map whose endpoint function is the sympy power evaluation;
used for the non-integer exponent branch (which leaves the rational model
and therefore propagates `unmodelled`). -/
def ValueRanges.increasingMapPow (a : ValueRanges) (n : ERat) :
    Except VRError ValueRanges :=
  match a.lower, a.upper with
  | .num l, .num u => do
      let fl ← ERat.epowEval l n
      let fu ← ERat.epowEval u n
      ValueRanges.mk? (.num fl) (.num fu)
  | _, _ => Except.error VRError.assertionError

/-- The `pow(a, b)` rule of `SymPyValueRangeAnalysis`, in source order:
`unknown()` unless `b` is a singleton; a singleton base is constant-folded
(`unknown()` when the result is not finite); `b == 0` yields the singleton
`1` when `a.lower` is finite and `unknown()` otherwise; a negative exponent
goes through `reciprocal`; `a == unknown()` yields `unknown()`; a non-integer
positive exponent requires `a.lower >= 0`; an even positive integer exponent
uses `convex_min_zero_map` and an odd one uses `increasing_map`, both with
`x ** b` on the endpoints. -/
def SymPyVRA.pow (a b : ValueRanges) : Except VRError ValueRanges :=
  match a.lower, a.upper, b.lower, b.upper with
  | .num al, .num au, .num bl, .num bu =>
      if bl ≠ bu then Except.ok ValueRanges.unknown
      else
        let n := bl
        if al = au then do
          let r ← ERat.epowEval al n
          if ERat.isFinite r then Except.ok (ValueRanges.wrapNum r)
          else Except.ok ValueRanges.unknown
        else if n = .fin 0 then
          if ERat.isFinite al then Except.ok (ValueRanges.wrapNum (.fin 1))
          else Except.ok ValueRanges.unknown
        else
          let a' := if ERat.blt n (.fin 0) then
              SymPyVRA.reciprocal ⟨.num al, .num au⟩
            else ⟨.num al, .num au⟩
          let n' := if ERat.blt n (.fin 0) then ERat.eneg n else n
          if a' = ValueRanges.unknown then Except.ok ValueRanges.unknown
          else if !(ERat.isIntB n') then
            if VRBound.ble (.num (.fin 0)) a'.lower then
              ValueRanges.increasingMapPow a' n'
            else Except.ok ValueRanges.unknown
          else
            match n' with
            | .fin q =>
                let k := q.num.toNat
                if k % 2 = 0 then
                  ValueRanges.convexMinZeroMap a' (fun x => ERat.epowNat x k)
                else
                  ValueRanges.increasingMap a' (fun x => ERat.epowNat x k)
            | _ => Except.error VRError.unmodelled
  | _, _, _, _ => Except.error VRError.assertionError

/-! ### gradcheck (`torch/autograd/gradcheck.py`)

The driver `gradcheck` is modelled by its control flow; the results of its
two oracle subroutines (`get_analytical_jacobian`, which calls the autograd
engine, and the second evaluation of `func`) are inputs of the model.  A
Jacobian block for one (input, output) pair is its list of entries, and the
comparison `(a - n).abs() <= atol + rtol * n.abs()` is elementwise over the
zipped entry lists (the two tensors have equal shape in every reachable
call). -/

/-- The elementwise `allclose` comparison of one analytical block `a` against
one numerical block `n`: `|a - n| <= atol + rtol * |n|` for every entry. -/
def allclose (atol rtol : ℚ) (a n : List ℚ) : Bool :=
  (a.zip n).all fun p => decide (|p.1 - p.2| ≤ atol + rtol * |p.2|)

/-- Per-output data of the first phase of `gradcheck`: the `requires_grad`
flag of the output, the results of `get_analytical_jacobian`
(`correct_grad_sizes`, `reentrant`) and, for every input index, the pair of
analytical and numerical Jacobian blocks. -/
structure OutputData where
  requiresGrad : Bool
  correctGradSizes : Bool
  reentrant : Bool
  jacs : List (List ℚ × List ℚ)

/-- Data consumed by the grad-output phase of `gradcheck`: one entry of
`grads_input`, with the results of the three checks performed on it. -/
structure GradInfo where
  isZero : Bool
  typeMatches : Bool
  sizeMatches : Bool

/-- Oracle data for one `gradcheck` run: the per-output phase data, whether
the second evaluation of `func` has any output requiring grad, whether
`diff_input_list` is empty, and the `grads_input` entries (`none` models a
`None` gradient). -/
structure GradcheckData where
  perOutput : List OutputData
  hasDiffOutputs : Bool
  diffInputsEmpty : Bool
  gradsInput : List (Option GradInfo)

/-- The distinct failure messages `gradcheck` can produce.  The Jacobian
mismatch message carries the output index and the input index it names. -/
inductive GCMsg where
  | incorrectSize : GCMsg
  | jacobianMismatch (i j : ℕ) : GCMsg
  | notReentrant : GCMsg
  | noTensorsRequiringGrad : GCMsg
  | backwardNotMultiplied : GCMsg
  | gradIncorrectType : GCMsg
  | gradIncorrectSize : GCMsg
deriving DecidableEq, Repr

/-- `fail_test(msg)`: raises `RuntimeError(msg)` when `raise_exception` is
set, otherwise returns `False` (which the caller returns from `gradcheck`). -/
def fail_test (re : Bool) (m : GCMsg) : Except GCMsg Bool :=
  if re then Except.error m else Except.ok false

/-- The inner comparison loop `for j, (a, n) in enumerate(...)`: index of the
first input block pair failing `allclose`, if any.  A pair with both blocks
empty is skipped by the `numel` guard in the source; it trivially passes
`allclose`, so no separate case is needed. -/
def findMismatch (atol rtol : ℚ) : ℕ → List (List ℚ × List ℚ) → Option ℕ
  | _, [] => none
  | j, p :: rest =>
      if !(allclose atol rtol p.1 p.2) then some j
      else findMismatch atol rtol (j + 1) rest

/-- The loop over `grads_input` in the grad-output phase: `None` entries are
skipped; a nonzero gradient, a type mismatch and a size mismatch fail in
that order. -/
def checkGrads (re : Bool) : List (Option GradInfo) → Except GCMsg Bool
  | [] => Except.ok true
  | none :: rest => checkGrads re rest
  | some g :: rest =>
      if !g.isZero then fail_test re GCMsg.backwardNotMultiplied
      else if !g.typeMatches then fail_test re GCMsg.gradIncorrectType
      else if !g.sizeMatches then fail_test re GCMsg.gradIncorrectSize
      else checkGrads re rest

/-- The grad-output phase of `gradcheck`: when some output requires grad, an
empty `diff_input_list` raises `RuntimeError("no Tensors requiring grad
found in input")` with a bare `raise` — not via `fail_test` — and otherwise
the `grads_input` checks run.  With no differentiable output the phase is
skipped and `gradcheck` returns `True`. -/
def gradOutputPhase (re : Bool) (d : GradcheckData) : Except GCMsg Bool :=
  if d.hasDiffOutputs then
    if d.diffInputsEmpty then Except.error GCMsg.noTensorsRequiringGrad
    else checkGrads re d.gradsInput
  else Except.ok true

/-- The per-output loop of `gradcheck` (`for i, o in enumerate(output)`), in
source order: outputs not requiring grad are skipped, then
`correct_grad_sizes`, then the Jacobian comparison naming the output and
input indices, then the `reentrant` flag; when the loop finishes, control
falls through to the grad-output phase (`tail`). -/
def checkOutputs (re : Bool) (atol rtol : ℚ) (tail : Except GCMsg Bool) :
    ℕ → List OutputData → Except GCMsg Bool
  | _, [] => tail
  | i, od :: rest =>
      if !od.requiresGrad then checkOutputs re atol rtol tail (i + 1) rest
      else if !od.correctGradSizes then fail_test re GCMsg.incorrectSize
      else
        match findMismatch atol rtol 0 od.jacs with
        | some j => fail_test re (GCMsg.jacobianMismatch i j)
        | none =>
            if !od.reentrant then fail_test re GCMsg.notReentrant
            else checkOutputs re atol rtol tail (i + 1) rest

/-- The `gradcheck` driver over the oracle data: the per-output phase
followed by the grad-output phase. -/
def gradcheck (re : Bool) (atol rtol : ℚ) (d : GradcheckData) :
    Except GCMsg Bool :=
  checkOutputs re atol rtol (gradOutputPhase re d) 0 d.perOutput

/-- One output block passes the Jacobian comparison when every one of its
(analytical, numerical) pairs is elementwise close. -/
def jacsPass (atol rtol : ℚ) (od : OutputData) : Bool :=
  od.jacs.all fun p => allclose atol rtol p.1 p.2

/-! ### get_numerical_jacobian (`torch/autograd/gradcheck.py`)

The differentiable input tensors are modelled as lists of rationals (the
flattened `x_tensor.view(-1)` views) and the function under test as a pure
map from the full input state to the flattened output.  The imperative
perturbation `flat_tensor[i] = orig - eps; outa = fn(input); flat_tensor[i]
= orig + eps; outb = fn(input); flat_tensor[i] = orig` is state passing. -/

/-- Write value `v` into entry `i` of tensor `t` of the input state. -/
def setEntry (xs : List (List ℚ)) (t i : ℕ) (v : ℚ) : List (List ℚ) :=
  xs.set t ((xs.getD t []).set i v)

/-- The central-difference column `r = (outb - outa) / (2 * eps)`. -/
def centralDiff (eps : ℚ) (outb outa : List ℚ) : List ℚ :=
  (outb.zip outa).map fun p => (p.1 - p.2) / (2 * eps)

/-- One iteration of the perturbation loop body for entry `i` of tensor `t`:
save `orig`, evaluate at `orig - eps` and then at `orig + eps`, restore
`orig`, and emit the central-difference column together with the input state
after the iteration. -/
def perturbStep (fn : List (List ℚ) → List ℚ) (eps : ℚ)
    (xs : List (List ℚ)) (t i : ℕ) : List ℚ × List (List ℚ) :=
  let orig := (xs.getD t []).getD i 0
  let xs1 := setEntry xs t i (orig - eps)
  let outa := fn xs1
  let xs2 := setEntry xs1 t i (orig + eps)
  let outb := fn xs2
  let xs3 := setEntry xs2 t i orig
  (centralDiff eps outb outa, xs3)

/-- Run the perturbation loop over a list of (tensor, entry) indices,
threading the mutable input state and collecting the Jacobian columns. -/
def runEntries (fn : List (List ℚ) → List ℚ) (eps : ℚ) :
    List (List ℚ) → List (ℕ × ℕ) → List (List ℚ) × List (List ℚ)
  | xs, [] => ([], xs)
  | xs, ti :: rest =>
      let s := perturbStep fn eps xs ti.1 ti.2
      let r := runEntries fn eps s.2 rest
      (s.1 :: r.1, r.2)

/-- The iteration order of `get_numerical_jacobian`: all entries of the
first differentiable tensor, then all entries of the second, and so on. -/
def entryIndices (xs : List (List ℚ)) : List (ℕ × ℕ) :=
  (List.range xs.length).flatMap fun t =>
    (List.range (xs.getD t []).length).map fun i => (t, i)

/-- `get_numerical_jacobian(fn, input, eps)` restricted to what the claims
consult: the list of central-difference columns in iteration order, paired
with the final state of the input tensors. -/
def get_numerical_jacobian (fn : List (List ℚ) → List ℚ) (eps : ℚ)
    (xs : List (List ℚ)) : List (List ℚ) × List (List ℚ) :=
  runEntries fn eps xs (entryIndices xs)

/-- The pure central-difference column for entry `i` of tensor `t`, taken on
the pristine input state: perturb only that entry by `+eps` and by `-eps`
and divide the difference of the two evaluations by `2 * eps`. -/
def pureColumn (fn : List (List ℚ) → List ℚ) (eps : ℚ)
    (xs : List (List ℚ)) (t i : ℕ) : List ℚ :=
  let orig := (xs.getD t []).getD i 0
  centralDiff eps (fn (setEntry xs t i (orig + eps)))
    (fn (setEntry xs t i (orig - eps)))

/-! ### scan (`torch/_higher_order_ops/scan.py`)

A tensor is modelled along the scanned dimension `dim` as the list of its
slices; a slice is an element of an arbitrary type `α` and the combine
function a binary operation on `α`.  `generic_scan` takes the first slice,
then repeatedly combines the running value with the next slice, emitting
every intermediate value (the concatenation of slices along `dim`). -/

/-- The `while ind < num_elems` loop of `generic_scan._scan`: `acc` is the
running combined slice `xs`, the emitted list is `outs`. -/
def scanLoop (op : α → α → α) (acc : α) : List α → List α
  | [] => [acc]
  | y :: ys => acc :: scanLoop op (op acc y) ys

/-- `generic_scan`: the inclusive left-to-right scan.  The source starts
from the slice at index `0`; a zero-length scan dimension (empty slice
list) is degenerate and returns the empty list. -/
def generic_scan (op : α → α → α) : List α → List α
  | [] => []
  | x :: xs => scanLoop op x xs

/-- The user-facing `scan(combine_fn, input, dim, reverse)`: with
`reverse=True` the input leaves are flipped along `dim`, the forward scan
(`scan_op`, whose eager implementation is `generic_scan`) runs, and the
result is flipped back. -/
def scan (op : α → α → α) (input : List α) (reverse : Bool) : List α :=
  if reverse then (generic_scan op input.reverse).reverse
  else generic_scan op input

/-! ### while_loop_node (`torch/_higher_order_ops/cudagraph_conditional_nodes.py`)

Python runtime values reaching the node builder are modelled by `PyVal`:
a tensor (with the metadata the checks consult), a tuple, or anything
else.  `c.copy_(o)` writes the body output values into the carried
tensors, so after the copy loop the observable carried values are the
body outputs. -/

/-- Tensor metadata consulted by `_is_boolean_scalar_cuda_tensor`. -/
structure CTensor where
  shape : List ℕ
  isBoolDtype : Bool
  isCuda : Bool

/-- A Python value: a tensor, a tuple of values, or any other object. -/
inductive PyVal where
  | tensor (t : CTensor) : PyVal
  | tuple (l : List PyVal) : PyVal
  | other : PyVal

/-- `_is_boolean_scalar_cuda_tensor(pred)`: a tensor with empty shape,
boolean dtype, on a CUDA device. -/
def _is_boolean_scalar_cuda_tensor : PyVal → Bool
  | .tensor t => decide (t.shape = []) && t.isBoolDtype && t.isCuda
  | _ => false

/-- The structural errors raised by `while_loop_node`: `carried_inputs` not
a tuple (`RuntimeError`), a predicate that is not a boolean scalar cuda
tensor (`RuntimeError`, checked before and after the body), a body output
that is not a tuple, and a body output of the wrong arity (both
`AssertionError`). -/
inductive WhileErr where
  | carriedNotTuple : WhileErr
  | condNotBoolScalar : WhileErr
  | bodyNotTuple : WhileErr
  | arityMismatch : WhileErr
deriving DecidableEq, Repr

/-- `while_loop_node(cond_fn, body_fn, carried_inputs, additional_inputs)`:
checks `carried_inputs` is a tuple, evaluates and checks the predicate,
captures one body execution, checks the body output is a tuple of the same
arity as the carried inputs, copies the outputs into the carried tensors,
re-evaluates and re-checks the predicate, and returns the carried values. -/
def while_loop_node (cond_fn body_fn : List PyVal → PyVal)
    (carried_inputs : PyVal) (additional_inputs : List PyVal) :
    Except WhileErr (List PyVal) :=
  match carried_inputs with
  | .tuple ts =>
      let pred := cond_fn (ts ++ additional_inputs)
      if !_is_boolean_scalar_cuda_tensor pred then
        Except.error WhileErr.condNotBoolScalar
      else
        match body_fn (ts ++ additional_inputs) with
        | .tuple out =>
            if out.length ≠ ts.length then Except.error WhileErr.arityMismatch
            else
              let carried2 := out
              let pred2 := cond_fn (carried2 ++ additional_inputs)
              if !_is_boolean_scalar_cuda_tensor pred2 then
                Except.error WhileErr.condNotBoolScalar
              else Except.ok carried2
        | _ => Except.error WhileErr.bodyNotTuple
  | _ => Except.error WhileErr.carriedNotTuple

/-- The claim-level predicate: a boolean scalar tensor (device not
consulted).  It is implied by `_is_boolean_scalar_cuda_tensor`. -/
def isBooleanScalarTensor : PyVal → Bool
  | .tensor t => decide (t.shape = []) && t.isBoolDtype
  | _ => false

/-! ### Symbol prefixes (`torch/utils/_sympy/symbol.py`) -/

/-- The symbol kinds of the `SymT` enum. -/
inductive SymT where
  | SIZE | FLOAT | UNBACKED_INT | UNBACKED_FLOAT | TMP | INDIRECT
  | PRECOMPUTED_SIZE | INDEX | RINDEX | TEMPLATE_INDEX | XBLOCK | YBLOCK
  | VIEW | HALIDE
deriving DecidableEq, Repr

/-- The `prefix_str` table, entry for entry. -/
def prefix_str : SymT → String
  | .SIZE => "s"
  | .UNBACKED_INT => "u"
  | .FLOAT => "zf"
  | .UNBACKED_FLOAT => "zuf"
  | .TMP => "tmp"
  | .PRECOMPUTED_SIZE => "ps"
  | .INDEX => "i"
  | .RINDEX => "r"
  | .TEMPLATE_INDEX => "idx"
  | .XBLOCK => "x"
  | .YBLOCK => "y"
  | .INDIRECT => "indirect"
  | .VIEW => "view"
  | .HALIDE => "h"

/-- The name `make_symbol(prefix, idx)` gives a symbol: the prefix string
followed by the decimal index (`f"{prefix_str[prefix]}{idx}"`). -/
def make_symbol_name (k : SymT) (idx : ℕ) : String :=
  prefix_str k ++ toString idx

/-- Python's `str.startswith`, on the character lists of the strings. -/
def str_starts_with (s p : String) : Bool :=
  p.data.isPrefixOf s.data

/-! ### Order lemmas for the bound domain -/

theorem ERat.ble_refl (a : ERat) : ERat.ble a a = true := by
  cases a <;> simp [ERat.ble]

theorem ERat.ble_trans {a b c : ERat} (h1 : ERat.ble a b = true)
    (h2 : ERat.ble b c = true) : ERat.ble a c = true := by
  cases a <;> cases b <;> cases c <;> simp_all [ERat.ble] <;> exact le_trans h1 h2

theorem ERat.ble_of_not_ble {a b : ERat} (h : ERat.ble a b = false) :
    ERat.ble b a = true := by
  cases a <;> cases b <;> simp_all [ERat.ble] <;> exact le_of_lt h

theorem VRBound.ble_self (a : VRBound) : VRBound.ble a a = true := by
  cases a with
  | num x => simp [VRBound.ble, ERat.ble_refl]
  | boolv b => cases b <;> simp [VRBound.ble, boolLe]

theorem ValueRanges.subset_refl (r : ValueRanges) : r.subset r = true := by
  simp [ValueRanges.subset, VRBound.ble_self]

theorem ValueRanges.subset_unknown_of_num (l u : ERat) :
    (ValueRanges.ofNum l u).subset ValueRanges.unknown = true := by
  cases l <;> cases u <;>
    simp [ValueRanges.subset, ValueRanges.ofNum, ValueRanges.unknown,
      VRBound.ble, ERat.ble]

/-- C4: for bounds of one domain (`sameKind`), the constructor
`ValueRanges(lower, upper)` raises `ValueRangeError` exactly when
`lower > upper` under the domain's order (that is, when `lower <= upper`
fails), and on success it stores exactly the given bounds — an inverted
range is never corrected or clamped. -/
theorem C4_construction (l u : VRBound) (hk : VRBound.sameKind l u = true) :
    (ValueRanges.mk? l u = Except.error VRError.valueRangeError ↔
      VRBound.ble l u = false)
    ∧ (∀ r, ValueRanges.mk? l u = Except.ok r → r.lower = l ∧ r.upper = u) := by
  unfold ValueRanges.mk?
  rw [hk]
  cases h : VRBound.ble l u <;> simp [h]

/-- Witness for C4 at the inverted numeric range `(3, 1)` and the valid
range `(1, 3)`. -/
theorem C4_construction_witness :
    (ValueRanges.mk? (.num (.fin 3)) (.num (.fin 1)) =
      Except.error VRError.valueRangeError)
    ∧ (ValueRanges.mk? (.num (.fin 1)) (.num (.fin 3)) ≠
      Except.error VRError.valueRangeError) := by
  refine ⟨(C4_construction (.num (.fin 3)) (.num (.fin 1)) (by decide)).1.mpr
    (by decide), ?_⟩
  intro h
  exact absurd ((C4_construction (.num (.fin 1)) (.num (.fin 3))
    (by decide)).1.mp h) (by decide)

/-- C2: for valid numeric ranges, `mod(x, y)` returns the exact singleton
`x mod y` (Python floor-modulo) when `x` and `y` are finite singletons and
`y` is nonzero; otherwise (first branch not taken) it returns `unknown()`
when `y.lower <= 0` and exactly `(0, y.upper)` when `y.lower > 0`; and on
the concrete ranges of the claim, `mod((-10, 10), (3, 3))` is exactly
`(0, 3)`. -/
theorem C2_mod :
    (∀ xl xu yl yu : ERat,
      (ValueRanges.ofNum xl xu).valid = true →
      (ValueRanges.ofNum yl yu).valid = true →
      ((∀ p q : ℚ, xl = .fin p → xu = .fin p → yl = .fin q → yu = .fin q →
          q ≠ 0 →
          SymPyVRA.mod (ValueRanges.ofNum xl xu) (ValueRanges.ofNum yl yu) =
            Except.ok (ValueRanges.wrapNum (.fin (pymod p q))))
        ∧ (¬(xl = xu ∧ yl = yu ∧ yl ≠ .fin 0) →
            ERat.ble yl (.fin 0) = true →
            SymPyVRA.mod (ValueRanges.ofNum xl xu) (ValueRanges.ofNum yl yu) =
              Except.ok ValueRanges.unknown)
        ∧ (¬(xl = xu ∧ yl = yu ∧ yl ≠ .fin 0) →
            ERat.ble yl (.fin 0) = false →
            SymPyVRA.mod (ValueRanges.ofNum xl xu) (ValueRanges.ofNum yl yu) =
              Except.ok (ValueRanges.ofNum (.fin 0) yu))))
    ∧ SymPyVRA.mod (ValueRanges.ofNum (.fin (-10)) (.fin 10))
        (ValueRanges.ofNum (.fin 3) (.fin 3)) =
        Except.ok (ValueRanges.ofNum (.fin 0) (.fin 3)) := by
  constructor
  · intro xl xu yl yu hx hy
    refine ⟨?_, ?_, ?_⟩
    · rintro p q rfl rfl rfl rfl hq
      simp [SymPyVRA.mod, ValueRanges.ofNum, hq, ERat.emodE,
        ValueRanges.wrapNum, Bind.bind, Except.bind]
    · intro hcond hle
      simp [SymPyVRA.mod, ValueRanges.ofNum, hcond, hle]
    · intro hcond hle
      have hyy : ERat.ble yl yu = true := by
        simpa [ValueRanges.valid, ValueRanges.ofNum, VRBound.sameKind,
          VRBound.ble] using hy
      have h0l : ERat.ble (.fin 0) yl = true := ERat.ble_of_not_ble hle
      have h0u : ERat.ble (.fin 0) yu = true := ERat.ble_trans h0l hyy
      simp [SymPyVRA.mod, ValueRanges.ofNum, hcond, hle, ValueRanges.mk?,
        VRBound.sameKind, VRBound.ble, h0u]
  · decide

unseal Rat.mul Rat.add Rat.sub Rat.inv in
/-- Witness for C2: the claim's own instance `mod((-10,10), (3,3)) = (0,3)`
through the third clause, and the finite singleton branch at
`mod((7,7), (-3,-3))`, whose floor-modulo is `-2`. -/
theorem C2_mod_witness :
    SymPyVRA.mod (ValueRanges.ofNum (.fin (-10)) (.fin 10))
        (ValueRanges.ofNum (.fin 3) (.fin 3)) =
      Except.ok (ValueRanges.ofNum (.fin 0) (.fin 3))
    ∧ SymPyVRA.mod (ValueRanges.ofNum (.fin 7) (.fin 7))
        (ValueRanges.ofNum (.fin (-3)) (.fin (-3))) =
      Except.ok (ValueRanges.wrapNum (.fin (-2))) := by
  constructor
  · exact (C2_mod.1 (.fin (-10)) (.fin 10) (.fin 3) (.fin 3) (by decide)
      (by decide)).2.2 (by decide) (by decide)
  · have h := (C2_mod.1 (.fin 7) (.fin 7) (.fin (-3)) (.fin (-3)) (by decide)
      (by decide)).1 7 (-3) rfl rfl rfl rfl (by norm_num)
    rw [h]
    decide

theorem ERat.ble_emax_left (a b : ERat) : ERat.ble a (ERat.emax a b) = true := by
  unfold ERat.emax
  split
  · assumption
  · exact ERat.ble_refl a

theorem ERat.ble_emax_right (a b : ERat) : ERat.ble b (ERat.emax a b) = true := by
  unfold ERat.emax
  split
  · exact ERat.ble_refl b
  · next h => exact ERat.ble_of_not_ble (Bool.not_eq_true _ ▸ h)

theorem ERat.ble_emin_left (a b : ERat) : ERat.ble (ERat.emin a b) a = true := by
  unfold ERat.emin
  split
  · exact ERat.ble_refl a
  · next h => exact ERat.ble_of_not_ble (Bool.not_eq_true _ ▸ h)

theorem ERat.ble_emin_right (a b : ERat) : ERat.ble (ERat.emin a b) b = true := by
  unfold ERat.emin
  split
  · assumption
  · exact ERat.ble_refl b

theorem ValueRanges.mk?_ok {l u : VRBound} {r : ValueRanges}
    (h : ValueRanges.mk? l u = Except.ok r) : r = ⟨l, u⟩ := by
  unfold ValueRanges.mk? at h
  split at h
  · split at h
    · cases h; rfl
    · cases h
  · cases h

theorem ValueRanges.mk?_ok_of_ble {l u : VRBound}
    (hk : VRBound.sameKind l u = true) (hb : VRBound.ble l u = true) :
    ValueRanges.mk? l u = Except.ok ⟨l, u⟩ := by
  simp [ValueRanges.mk?, hk, hb]

/-- C3 counterexample: the valid numeric ranges `(0, 1)` and `(2, 3)` are
disjoint, so their meet raises `ValueRangeError` instead of returning a
range — no range `a & b` contained in `a` exists for them, refuting the
claim's unconditional meet law. -/
theorem C3_lattice_cex :
    (ValueRanges.ofNum (.fin 0) (.fin 1)).valid = true
    ∧ (ValueRanges.ofNum (.fin 2) (.fin 3)).valid = true
    ∧ ValueRanges.and_ (ValueRanges.ofNum (.fin 0) (.fin 1))
        (ValueRanges.ofNum (.fin 2) (.fin 3)) =
        Except.error VRError.valueRangeError := by
  decide

/-- C3 amended: for valid ranges of the same domain, whenever the meet
`a & b` succeeds its result is contained in `a` and in `b` (on disjoint
ranges the meet raises `ValueRangeError` instead of returning a range); the
join `a | b` always succeeds and contains `a`; and for every range,
`a & unknown() == a` and `a | unknown() == unknown()`. -/
theorem C3_lattice_amended :
    (∀ a b : ValueRanges, a.valid = true → b.valid = true →
      a.isBool = b.isBool →
      ((∀ r, ValueRanges.and_ a b = Except.ok r →
          r.subset a = true ∧ r.subset b = true)
        ∧ (∃ r, ValueRanges.or_ a b = Except.ok r ∧ a.subset r = true)))
    ∧ (∀ a : ValueRanges,
        ValueRanges.and_ a ValueRanges.unknown = Except.ok a
        ∧ ValueRanges.or_ a ValueRanges.unknown =
            Except.ok ValueRanges.unknown) := by
  constructor
  · intro a b ha hb hk
    obtain ⟨alo, ahi⟩ := a
    obtain ⟨blo, bhi⟩ := b
    cases alo with
    | boolv pa =>
      cases ahi with
      | num y => exact absurd ha (by simp [ValueRanges.valid, VRBound.sameKind])
      | boolv pb =>
        cases blo with
        | num xb => exact absurd hk (by simp [ValueRanges.isBool])
        | boolv qa =>
          cases bhi with
          | num yb =>
            exact absurd hb (by simp [ValueRanges.valid, VRBound.sameKind])
          | boolv qb =>
            have hA : boolLe pa pb = true := by
              simpa [ValueRanges.valid, VRBound.sameKind, VRBound.ble] using ha
            have hne : (⟨.boolv qa, .boolv qb⟩ : ValueRanges) ≠
                ValueRanges.unknown := by simp [ValueRanges.unknown]
            have hne' : (⟨.boolv pa, .boolv pb⟩ : ValueRanges) ≠
                ValueRanges.unknown := by simp [ValueRanges.unknown]
            constructor
            · intro r hr
              rw [ValueRanges.and_, if_neg hne, if_neg hne'] at hr
              have hr' : ValueRanges.mk? (.boolv (pa || qa))
                  (.boolv (pb && qb)) = Except.ok r := hr
              cases ValueRanges.mk?_ok hr'
              constructor <;>
                (cases pa <;> cases pb <;> cases qa <;> cases qb <;> decide)
            · refine ⟨⟨.boolv (pa && qa), .boolv (pb || qb)⟩, ?_, ?_⟩
              · rw [ValueRanges.or_, if_neg (not_or.mpr ⟨hne', hne⟩)]
                have goal : ValueRanges.mk? (.boolv (pa && qa))
                    (.boolv (pb || qb)) =
                    Except.ok ⟨.boolv (pa && qa), .boolv (pb || qb)⟩ := by
                  refine ValueRanges.mk?_ok_of_ble rfl ?_
                  revert hA
                  cases pa <;> cases pb <;> cases qa <;> cases qb <;> decide
                exact goal
              · revert hA
                cases pa <;> cases pb <;> cases qa <;> cases qb <;> decide
    | num xa =>
      cases ahi with
      | boolv p => exact absurd ha (by simp [ValueRanges.valid, VRBound.sameKind])
      | num ya =>
        cases blo with
        | boolv q => exact absurd hk (by simp [ValueRanges.isBool])
        | num xb =>
          cases bhi with
          | boolv q =>
            exact absurd hb (by simp [ValueRanges.valid, VRBound.sameKind])
          | num yb =>
            have hA : ERat.ble xa ya = true := by
              simpa [ValueRanges.valid, VRBound.sameKind, VRBound.ble] using ha
            have hB : ERat.ble xb yb = true := by
              simpa [ValueRanges.valid, VRBound.sameKind, VRBound.ble] using hb
            by_cases hbu : (⟨.num xb, .num yb⟩ : ValueRanges) =
                ValueRanges.unknown
            · constructor
              · intro r hr
                rw [ValueRanges.and_, if_pos hbu] at hr
                cases hr
                refine ⟨ValueRanges.subset_refl _, ?_⟩
                rw [hbu]
                exact ValueRanges.subset_unknown_of_num xa ya
              · refine ⟨ValueRanges.unknown, ?_, ?_⟩
                · rw [ValueRanges.or_, if_pos (Or.inr hbu)]
                · exact ValueRanges.subset_unknown_of_num xa ya
            · by_cases hau : (⟨.num xa, .num ya⟩ : ValueRanges) =
                  ValueRanges.unknown
              · constructor
                · intro r hr
                  rw [ValueRanges.and_, if_neg hbu, if_pos hau] at hr
                  cases hr
                  refine ⟨?_, ValueRanges.subset_refl _⟩
                  rw [hau]
                  exact ValueRanges.subset_unknown_of_num xb yb
                · refine ⟨ValueRanges.unknown, ?_, ?_⟩
                  · rw [ValueRanges.or_, if_pos (Or.inl hau)]
                  · rw [hau]
                    exact ValueRanges.subset_refl _
              · constructor
                · intro r hr
                  rw [ValueRanges.and_, if_neg hbu, if_neg hau] at hr
                  have hr' : ValueRanges.mk? (.num (ERat.emax xa xb))
                      (.num (ERat.emin ya yb)) = Except.ok r := hr
                  cases ValueRanges.mk?_ok hr'
                  constructor
                  · simp [ValueRanges.subset, VRBound.ble,
                      ERat.ble_emax_left, ERat.ble_emin_left]
                  · simp [ValueRanges.subset, VRBound.ble,
                      ERat.ble_emax_right, ERat.ble_emin_right]
                · refine ⟨⟨.num (ERat.emin xa xb), .num (ERat.emax ya yb)⟩,
                    ?_, ?_⟩
                  · rw [ValueRanges.or_, if_neg (not_or.mpr ⟨hau, hbu⟩)]
                    have goal : ValueRanges.mk? (.num (ERat.emin xa xb))
                        (.num (ERat.emax ya yb)) =
                        Except.ok ⟨.num (ERat.emin xa xb),
                          .num (ERat.emax ya yb)⟩ := by
                      refine ValueRanges.mk?_ok_of_ble rfl ?_
                      exact ERat.ble_trans (ERat.ble_emin_left xa xb)
                        (ERat.ble_trans hA (ERat.ble_emax_left ya yb))
                    exact goal
                  · simp [ValueRanges.subset, VRBound.ble,
                      ERat.ble_emin_left, ERat.ble_emax_left]
  · intro a
    constructor
    · simp [ValueRanges.and_]
    · simp [ValueRanges.or_]

/-- Witness for C3 amended, at the overlapping valid ranges `(0, 5)` and
`(3, 10)`: the meet succeeds with `(3, 5)`, which is contained in both
operands. -/
theorem C3_lattice_amended_witness :
    ValueRanges.subset ⟨.num (.fin 3), .num (.fin 5)⟩
        (ValueRanges.ofNum (.fin 0) (.fin 5)) = true
    ∧ ValueRanges.subset ⟨.num (.fin 3), .num (.fin 5)⟩
        (ValueRanges.ofNum (.fin 3) (.fin 10)) = true :=
  (C3_lattice_amended.1 (ValueRanges.ofNum (.fin 0) (.fin 5))
    (ValueRanges.ofNum (.fin 3) (.fin 10)) (by decide) (by decide)
    (by decide)).1 ⟨.num (.fin 3), .num (.fin 5)⟩ (by decide)

/-- C5 counterexample: for `a = unknown()` and `b` the singleton `2` — a
singleton positive even integer — `pow` returns `unknown()` through the
dedicated `a == unknown()` early return, not the value of
`convex_min_zero_map(a, x^2)`, which is `(0, oo)`. -/
theorem C5_pow_cex :
    SymPyVRA.pow ValueRanges.unknown (ValueRanges.wrapNum (.fin 2)) =
      Except.ok ValueRanges.unknown
    ∧ ValueRanges.convexMinZeroMap ValueRanges.unknown
        (fun x => ERat.epowNat x 2) =
        Except.ok (ValueRanges.ofNum (.fin 0) .top)
    ∧ ValueRanges.ofNum (.fin 0) ERat.top ≠ ValueRanges.unknown := by
  decide

/-- C5 amended: for valid numeric ranges, `pow(a, b)` returns `unknown()`
whenever `b` is not a singleton; when `b` is the singleton `0` and `a` is
not a singleton, it returns the singleton `1` if `a.lower` is finite and
`unknown()` otherwise; when `b` is a singleton positive even integer and
`a` is neither a singleton nor `unknown()`, it returns
`convex_min_zero_map(a, x^b)`; when `b` is a singleton positive odd integer
and `a` is neither a singleton nor `unknown()`, it returns
`increasing_map(a, x^b)`; when `a == unknown()` and `b` is a positive
integer singleton, it returns `unknown()`; and a finite singleton base with
a natural singleton exponent is constant-folded to the singleton
`a.lower ^ b`. -/
theorem C5_pow_amended :
    (∀ al au bl bu : ERat, bl ≠ bu →
      SymPyVRA.pow (ValueRanges.ofNum al au) (ValueRanges.ofNum bl bu) =
        Except.ok ValueRanges.unknown)
    ∧ (∀ al au : ERat, al ≠ au → ERat.isFinite al = true →
        SymPyVRA.pow (ValueRanges.ofNum al au)
          (ValueRanges.wrapNum (.fin 0)) =
          Except.ok (ValueRanges.wrapNum (.fin 1)))
    ∧ (∀ al au : ERat, al ≠ au → ERat.isFinite al = false →
        SymPyVRA.pow (ValueRanges.ofNum al au)
          (ValueRanges.wrapNum (.fin 0)) =
          Except.ok ValueRanges.unknown)
    ∧ (∀ (al au : ERat) (n : ℕ), al ≠ au →
        ValueRanges.ofNum al au ≠ ValueRanges.unknown → 0 < n → n % 2 = 0 →
        SymPyVRA.pow (ValueRanges.ofNum al au)
            (ValueRanges.wrapNum (.fin (n : ℚ))) =
          ValueRanges.convexMinZeroMap (ValueRanges.ofNum al au)
            (fun x => ERat.epowNat x n))
    ∧ (∀ (al au : ERat) (n : ℕ), al ≠ au →
        ValueRanges.ofNum al au ≠ ValueRanges.unknown → 0 < n → n % 2 = 1 →
        SymPyVRA.pow (ValueRanges.ofNum al au)
            (ValueRanges.wrapNum (.fin (n : ℚ))) =
          ValueRanges.increasingMap (ValueRanges.ofNum al au)
            (fun x => ERat.epowNat x n))
    ∧ (∀ n : ℕ, 0 < n →
        SymPyVRA.pow ValueRanges.unknown
            (ValueRanges.wrapNum (.fin (n : ℚ))) =
          Except.ok ValueRanges.unknown)
    ∧ (∀ (p : ℚ) (n : ℕ),
        SymPyVRA.pow (ValueRanges.wrapNum (.fin p))
            (ValueRanges.wrapNum (.fin (n : ℚ))) =
          Except.ok (ValueRanges.wrapNum (.fin (p ^ n)))) := by
  refine ⟨?_, ?_, ?_, ?_, ?_, ?_, ?_⟩
  · intro al au bl bu hne
    simp [SymPyVRA.pow, ValueRanges.ofNum, hne]
  · intro al au hne hfin
    simp [SymPyVRA.pow, ValueRanges.ofNum, ValueRanges.wrapNum, hne, hfin]
  · intro al au hne hfin
    simp [SymPyVRA.pow, ValueRanges.ofNum, ValueRanges.wrapNum, hne, hfin]
  · intro al au n hne hu hpos heven
    have hn0 : n ≠ 0 := Nat.pos_iff_ne_zero.mp hpos
    simp [SymPyVRA.pow, ValueRanges.ofNum, ValueRanges.wrapNum, hne, hu,
      ERat.blt, ERat.ble, ERat.isIntB, Rat.den_natCast, Rat.num_natCast,
      Nat.cast_nonneg, Nat.cast_eq_zero, hn0, heven, ValueRanges.unknown]
    intro h1 h2
    subst h1
    subst h2
    exact absurd rfl hu
  · intro al au n hne hu hpos hodd
    have hn0 : n ≠ 0 := Nat.pos_iff_ne_zero.mp hpos
    simp [SymPyVRA.pow, ValueRanges.ofNum, ValueRanges.wrapNum, hne, hu,
      ERat.blt, ERat.ble, ERat.isIntB, Rat.den_natCast, Rat.num_natCast,
      Nat.cast_nonneg, Nat.cast_eq_zero, hn0, hodd, ValueRanges.unknown]
    intro h1 h2
    subst h1
    subst h2
    exact absurd rfl hu
  · intro n hpos
    have hn0 : n ≠ 0 := Nat.pos_iff_ne_zero.mp hpos
    simp [SymPyVRA.pow, ValueRanges.unknown, ValueRanges.wrapNum,
      ERat.blt, ERat.ble, ERat.isIntB, Rat.den_natCast, Rat.num_natCast,
      Nat.cast_nonneg, Nat.cast_eq_zero, hn0]
  · intro p n
    simp [SymPyVRA.pow, ValueRanges.wrapNum, ERat.epowEval,
      Rat.den_natCast, Rat.num_natCast, Int.toNat_natCast, ERat.isFinite,
      Bind.bind, Except.bind]

/-- Witness for C5 amended, at `a = (-3, 2)` and `b` the singleton `2`:
the even-exponent rule applies and evaluates to `(0, 9)`. -/
theorem C5_pow_amended_witness :
    SymPyVRA.pow (ValueRanges.ofNum (.fin (-3)) (.fin 2))
        (ValueRanges.wrapNum (.fin (2 : ℕ))) =
      ValueRanges.convexMinZeroMap (ValueRanges.ofNum (.fin (-3)) (.fin 2))
        (fun x => ERat.epowNat x 2)
    ∧ ValueRanges.convexMinZeroMap (ValueRanges.ofNum (.fin (-3)) (.fin 2))
        (fun x => ERat.epowNat x 2) =
        Except.ok (ValueRanges.ofNum (.fin 0) (.fin 9)) := by
  constructor
  · exact C5_pow_amended.2.2.2.1 (.fin (-3)) (.fin 2) 2 (by decide)
      (by decide) (by decide) (by decide)
  · decide

/-- C6: `scan` with integer addition over `[1, 2, 3, 4]` produces the
inclusive running sum `[1, 3, 6, 10]`; with `reverse=True` it produces
`[10, 9, 7, 4]`; and in general the reverse scan is: flip the input, run
the forward (left-to-right) inclusive scan, flip the result back. -/
theorem C6_scan :
    scan (fun a b : ℤ => a + b) [1, 2, 3, 4] false = [1, 3, 6, 10]
    ∧ scan (fun a b : ℤ => a + b) [1, 2, 3, 4] true = [10, 9, 7, 4]
    ∧ ∀ (α : Type) (op : α → α → α) (input : List α),
        scan op input true = (scan op input.reverse false).reverse := by
  refine ⟨by decide, by decide, ?_⟩
  intro α op input
  simp [scan]

/-- The predicate refinement behind C8: a value that is not a boolean
scalar tensor is in particular not a boolean scalar cuda tensor. -/
theorem not_bool_scalar_cuda_of_not_bool_scalar {p : PyVal}
    (h : isBooleanScalarTensor p = false) :
    _is_boolean_scalar_cuda_tensor p = false := by
  cases p with
  | tensor t =>
      simp [isBooleanScalarTensor, _is_boolean_scalar_cuda_tensor] at h ⊢
      intro hs hb
      rw [h hs] at hb
      cases hb
  | tuple l => rfl
  | other => rfl

/-- C8: the while-loop node builder raises its structural errors exactly as
claimed — if the first predicate is not a boolean scalar tensor the node
fails before the body runs (for every body function); after the one body
execution the re-evaluated predicate is checked again and fails the same
way; a body output that is not a tuple, or a tuple of the wrong arity,
fails with the corresponding error.  All four results are final values of
the builder: the errors are fatal and nothing is retried. -/
theorem C8_while_loop_errors
    (cond_fn body_fn : List PyVal → PyVal) (ts add_ : List PyVal) :
    (isBooleanScalarTensor (cond_fn (ts ++ add_)) = false →
      ∀ body_fn2 : List PyVal → PyVal,
        while_loop_node cond_fn body_fn2 (.tuple ts) add_ =
          Except.error WhileErr.condNotBoolScalar)
    ∧ (∀ out, _is_boolean_scalar_cuda_tensor (cond_fn (ts ++ add_)) = true →
        body_fn (ts ++ add_) = .tuple out → out.length = ts.length →
        isBooleanScalarTensor (cond_fn (out ++ add_)) = false →
        while_loop_node cond_fn body_fn (.tuple ts) add_ =
          Except.error WhileErr.condNotBoolScalar)
    ∧ (_is_boolean_scalar_cuda_tensor (cond_fn (ts ++ add_)) = true →
        (∀ l, body_fn (ts ++ add_) ≠ .tuple l) →
        while_loop_node cond_fn body_fn (.tuple ts) add_ =
          Except.error WhileErr.bodyNotTuple)
    ∧ (∀ out, _is_boolean_scalar_cuda_tensor (cond_fn (ts ++ add_)) = true →
        body_fn (ts ++ add_) = .tuple out → out.length ≠ ts.length →
        while_loop_node cond_fn body_fn (.tuple ts) add_ =
          Except.error WhileErr.arityMismatch) := by
  refine ⟨?_, ?_, ?_, ?_⟩
  · intro h body_fn2
    have h' := not_bool_scalar_cuda_of_not_bool_scalar h
    simp [while_loop_node, h']
  · intro out h1 hb hlen h2
    have h2' := not_bool_scalar_cuda_of_not_bool_scalar h2
    simp [while_loop_node, h1, hb, hlen, h2']
  · intro h1 hnt
    cases hb : body_fn (ts ++ add_) with
    | tensor t => simp [while_loop_node, h1, hb]
    | other => simp [while_loop_node, h1, hb]
    | tuple l => exact absurd hb (hnt l)
  · intro out h1 hb hlen
    simp [while_loop_node, h1, hb, hlen]

/-- Witness for C8 at concrete functions: a predicate returning a non-tensor
fails before the body; a correct first predicate with a body returning a
tuple of the wrong arity fails with the arity error. -/
theorem C8_while_loop_errors_witness :
    while_loop_node (fun _ => PyVal.other) (fun _ => PyVal.tuple [])
        (.tuple []) [] = Except.error WhileErr.condNotBoolScalar
    ∧ while_loop_node
        (fun _ => PyVal.tensor ⟨[], true, true⟩)
        (fun _ => PyVal.tuple [PyVal.other])
        (.tuple []) [] = Except.error WhileErr.arityMismatch := by
  constructor
  · exact (C8_while_loop_errors (fun _ => PyVal.other)
      (fun _ => PyVal.tuple []) [] []).1 rfl (fun _ => PyVal.tuple [])
  · exact (C8_while_loop_errors (fun _ => PyVal.tensor ⟨[], true, true⟩)
      (fun _ => PyVal.tuple [PyVal.other]) [] []).2.2.2 [PyVal.other]
      rfl rfl (by decide)

/-- C9: the prefix table is not prefix-free, contradicting both the claim
and the invariant comment above `prefix_str` in the source: the prefix
`"i"` of `SymT.INDEX` is a string prefix of `"idx"` (`SymT.TEMPLATE_INDEX`)
and of `"indirect"` (`SymT.INDIRECT`); consequently the `TEMPLATE_INDEX`
name `"idx0"` produced by `make_symbol` starts with the `INDEX` prefix. -/
theorem C9_prefix_not_prefix_free :
    str_starts_with (prefix_str SymT.TEMPLATE_INDEX)
        (prefix_str SymT.INDEX) = true
    ∧ str_starts_with (prefix_str SymT.INDIRECT)
        (prefix_str SymT.INDEX) = true
    ∧ str_starts_with (make_symbol_name SymT.TEMPLATE_INDEX 0)
        (prefix_str SymT.INDEX) = true
    ∧ SymT.INDEX ≠ SymT.TEMPLATE_INDEX
    ∧ SymT.INDEX ≠ SymT.INDIRECT := by
  decide

theorem findMismatch_eq_none (atol rtol : ℚ) :
    ∀ (l : List (List ℚ × List ℚ)) (j0 : ℕ),
      l.all (fun p => allclose atol rtol p.1 p.2) = true →
      findMismatch atol rtol j0 l = none := by
  intro l
  induction l with
  | nil => intro j0 _; rfl
  | cons p rest ih =>
      intro j0 h
      rw [List.all_cons, Bool.and_eq_true] at h
      simp [findMismatch, h.1, ih (j0 + 1) h.2]

theorem findMismatch_of_not_all (atol rtol : ℚ) :
    ∀ (l : List (List ℚ × List ℚ)) (j0 : ℕ),
      l.all (fun p => allclose atol rtol p.1 p.2) = false →
      ∃ k p, findMismatch atol rtol j0 l = some (j0 + k)
        ∧ l[k]? = some p ∧ allclose atol rtol p.1 p.2 = false := by
  intro l
  induction l with
  | nil => intro j0 h; cases h
  | cons p rest ih =>
      intro j0 h
      rw [List.all_cons, Bool.and_eq_false_iff] at h
      cases hp : allclose atol rtol p.1 p.2 with
      | false =>
          refine ⟨0, p, ?_, by simp, hp⟩
          simp [findMismatch, hp]
      | true =>
          have hrest : rest.all (fun q => allclose atol rtol q.1 q.2) = false := by
            cases h with
            | inl h1 => rw [hp] at h1; cases h1
            | inr h2 => exact h2
          obtain ⟨k, q, hfind, hget, hcl⟩ := ih (j0 + 1) hrest
          refine ⟨k + 1, q, ?_, by simpa using hget, hcl⟩
          have : j0 + 1 + k = j0 + (k + 1) := by omega
          simp [findMismatch, hp, this ▸ hfind]

theorem checkOutputs_all_pass (re : Bool) (atol rtol : ℚ)
    (tail : Except GCMsg Bool) :
    ∀ (l : List OutputData) (i0 : ℕ),
      (∀ od ∈ l, od.requiresGrad = true →
        od.correctGradSizes = true ∧ jacsPass atol rtol od = true
          ∧ od.reentrant = true) →
      checkOutputs re atol rtol tail i0 l = tail := by
  intro l
  induction l with
  | nil => intro i0 _; rfl
  | cons od rest ih =>
      intro i0 h
      cases hg : od.requiresGrad with
      | false => simpa [checkOutputs, hg] using ih (i0 + 1) fun x hx => h x (List.mem_cons_of_mem od hx)
      | true =>
          obtain ⟨hsz, hjp, hre⟩ := h od (List.mem_cons_self od rest) hg
          rw [checkOutputs]
          simp only [hg, hsz, Bool.not_true]
          rw [findMismatch_eq_none atol rtol od.jacs 0 hjp]
          simp [hre, ih (i0 + 1) fun x hx => h x (List.mem_cons_of_mem od hx)]

theorem checkOutputs_first_mismatch (re : Bool) (atol rtol : ℚ)
    (tail : Except GCMsg Bool) :
    ∀ (l : List OutputData) (i0 : ℕ),
      (∀ od ∈ l, od.requiresGrad = true →
        od.correctGradSizes = true ∧ od.reentrant = true) →
      (∃ od ∈ l, od.requiresGrad = true ∧ jacsPass atol rtol od = false) →
      ∃ k j od p, l[k]? = some od ∧ od.jacs[j]? = some p
        ∧ allclose atol rtol p.1 p.2 = false
        ∧ checkOutputs re atol rtol tail i0 l =
            fail_test re (GCMsg.jacobianMismatch (i0 + k) j) := by
  intro l
  induction l with
  | nil =>
      intro i0 _ hex
      obtain ⟨od, hod, _⟩ := hex
      cases hod
  | cons od rest ih =>
      intro i0 hok hex
      cases hg : od.requiresGrad with
      | false =>
          have hex' : ∃ x ∈ rest, x.requiresGrad = true
              ∧ jacsPass atol rtol x = false := by
            obtain ⟨x, hx, hrg, hjp⟩ := hex
            cases List.mem_cons.mp hx with
            | inl heq => rw [heq] at hrg; rw [hrg] at hg; cases hg
            | inr hmem => exact ⟨x, hmem, hrg, hjp⟩
          obtain ⟨k, j, x, p, hget, hjget, hcl, hco⟩ :=
            ih (i0 + 1) (fun y hy => hok y (List.mem_cons_of_mem od hy)) hex'
          refine ⟨k + 1, j, x, p, by simpa using hget, hjget, hcl, ?_⟩
          have harith : i0 + 1 + k = i0 + (k + 1) := by omega
          rw [checkOutputs]
          simpa [hg, harith] using hco
      | true =>
          obtain ⟨hsz, hre⟩ := hok od (List.mem_cons_self od rest) hg
          cases hjp : jacsPass atol rtol od with
          | false =>
              obtain ⟨j, p, hfind, hget, hcl⟩ :=
                findMismatch_of_not_all atol rtol od.jacs 0
                  (by simpa [jacsPass] using hjp)
              refine ⟨0, j, od, p, by simp, hget, hcl, ?_⟩
              rw [checkOutputs]
              simp [hg, hsz, hfind]
          | true =>
              have hex' : ∃ x ∈ rest, x.requiresGrad = true
                  ∧ jacsPass atol rtol x = false := by
                obtain ⟨x, hx, hrg, hjpx⟩ := hex
                cases List.mem_cons.mp hx with
                | inl heq => rw [heq] at hjpx; rw [hjpx] at hjp; cases hjp
                | inr hmem => exact ⟨x, hmem, hrg, hjpx⟩
              obtain ⟨k, j, x, p, hget, hjget, hcl, hco⟩ :=
                ih (i0 + 1) (fun y hy => hok y (List.mem_cons_of_mem od hy))
                  hex'
              refine ⟨k + 1, j, x, p, by simpa using hget, hjget, hcl, ?_⟩
              have harith : i0 + 1 + k = i0 + (k + 1) := by omega
              rw [checkOutputs]
              simp only [hg, hsz, Bool.not_true, Bool.false_eq_true,
                if_false]
              rw [findMismatch_eq_none atol rtol od.jacs 0
                (by simpa [jacsPass] using hjp)]
              simpa [hre, harith] using hco

/-- C1: under clean size, reentrancy and grad-output phases, `gradcheck`
returns `True` exactly when every (analytical, numerical) block pair of
every differentiable output satisfies `|a - n| <= atol + rtol * |n|`
elementwise; and when some entry violates the bound, with
`raise_exception=True` it raises the Jacobian-mismatch `RuntimeError`
naming the indices of a violating output and input, while with
`raise_exception=False` it returns `False`. -/
theorem C1_gradcheck_tolerance (re : Bool) (atol rtol : ℚ)
    (d : GradcheckData)
    (hok : ∀ od ∈ d.perOutput, od.requiresGrad = true →
      od.correctGradSizes = true ∧ od.reentrant = true)
    (hph : gradOutputPhase re d = Except.ok true) :
    (gradcheck re atol rtol d = Except.ok true ↔
      ∀ od ∈ d.perOutput, od.requiresGrad = true →
        jacsPass atol rtol od = true)
    ∧ ((∃ od ∈ d.perOutput, od.requiresGrad = true ∧
          jacsPass atol rtol od = false) →
        (re = true → ∃ i j od p, d.perOutput[i]? = some od
            ∧ od.jacs[j]? = some p ∧ allclose atol rtol p.1 p.2 = false
            ∧ gradcheck re atol rtol d =
                Except.error (GCMsg.jacobianMismatch i j))
        ∧ (re = false → gradcheck re atol rtol d = Except.ok false)) := by
  constructor
  · constructor
    · intro hres
      by_contra hnall
      push_neg at hnall
      obtain ⟨od, hmem, hrg, hjp⟩ := hnall
      have hex : ∃ x ∈ d.perOutput, x.requiresGrad = true
          ∧ jacsPass atol rtol x = false :=
        ⟨od, hmem, hrg, Bool.not_eq_true _ ▸ hjp⟩
      obtain ⟨k, j, x, p, _, _, _, hco⟩ := checkOutputs_first_mismatch re
        atol rtol (gradOutputPhase re d) d.perOutput 0 hok hex
      rw [gradcheck] at hres
      rw [hco] at hres
      cases re <;> simp [fail_test] at hres
    · intro hall
      rw [gradcheck, checkOutputs_all_pass re atol rtol
        (gradOutputPhase re d) d.perOutput 0
        (fun od hmem hrg => ⟨(hok od hmem hrg).1, hall od hmem hrg,
          (hok od hmem hrg).2⟩)]
      exact hph
  · intro hex
    obtain ⟨k, j, x, p, hget, hjget, hcl, hco⟩ := checkOutputs_first_mismatch
      re atol rtol (gradOutputPhase re d) d.perOutput 0 hok hex
    constructor
    · intro hre
      subst hre
      exact ⟨k, j, x, p, hget, hjget, hcl,
        by rw [gradcheck, hco]; simp [fail_test]⟩
    · intro hre
      subst hre
      rw [gradcheck, hco]
      simp [fail_test]

theorem checkGrads_false_no_error :
    ∀ l : List (Option GradInfo),
      checkGrads false l = Except.ok true ∨ checkGrads false l = Except.ok false := by
  intro l
  induction l with
  | nil => exact Or.inl rfl
  | cons g rest ih =>
      cases g with
      | none => simpa [checkGrads] using ih
      | some gi =>
          by_cases h1 : gi.isZero = true
          · by_cases h2 : gi.typeMatches = true
            · by_cases h3 : gi.sizeMatches = true
              · simpa [checkGrads, h1, h2, h3] using ih
              · simp [checkGrads, h1, h2, Bool.not_eq_true _ ▸ h3, fail_test]
            · simp [checkGrads, h1, Bool.not_eq_true _ ▸ h2, fail_test]
          · simp [checkGrads, Bool.not_eq_true _ ▸ h1, fail_test]

theorem checkOutputs_false_error (atol rtol : ℚ)
    (tail : Except GCMsg Bool) (m : GCMsg) :
    ∀ (l : List OutputData) (i0 : ℕ),
      checkOutputs false atol rtol tail i0 l = Except.error m →
      tail = Except.error m := by
  intro l
  induction l with
  | nil => intro i0 h; exact h
  | cons od rest ih =>
      intro i0 h
      rw [checkOutputs] at h
      by_cases hg : od.requiresGrad = true
      · simp only [hg, Bool.not_true, Bool.false_eq_true, if_false] at h
        by_cases hsz : od.correctGradSizes = true
        · simp only [hsz, Bool.not_true, Bool.false_eq_true, if_false] at h
          cases hfind : findMismatch atol rtol 0 od.jacs with
          | some j => rw [hfind] at h; simp [fail_test] at h
          | none =>
              rw [hfind] at h
              by_cases hre : od.reentrant = true
              · simp only [hre, Bool.not_true, Bool.false_eq_true,
                  if_false] at h
                exact ih (i0 + 1) h
              · rw [Bool.not_eq_true] at hre
                simp [hre, fail_test] at h
        · rw [Bool.not_eq_true] at hsz
          simp [hsz, fail_test] at h
      · rw [Bool.not_eq_true] at hg
        simp only [hg, Bool.not_false, if_true] at h
        exact ih (i0 + 1) h

/-- C10: when the grad-output phase is reached with outputs requiring grad
and an empty `diff_input_list`, `gradcheck` raises `RuntimeError("no
Tensors requiring grad found in input")` for both values of
`raise_exception` — and it is the only failure that escapes as an error
when `raise_exception=False`: every other failure returns `False` in that
mode. -/
theorem C10_no_tensors_requiring_grad (atol rtol : ℚ) :
    (∀ (re : Bool) (d : GradcheckData),
      (∀ od ∈ d.perOutput, od.requiresGrad = true →
        od.correctGradSizes = true ∧ jacsPass atol rtol od = true
          ∧ od.reentrant = true) →
      d.hasDiffOutputs = true → d.diffInputsEmpty = true →
      gradcheck re atol rtol d =
        Except.error GCMsg.noTensorsRequiringGrad)
    ∧ (∀ (d : GradcheckData) (m : GCMsg),
        gradcheck false atol rtol d = Except.error m →
        m = GCMsg.noTensorsRequiringGrad) := by
  constructor
  · intro re d hpass hdiff hempty
    rw [gradcheck, checkOutputs_all_pass re atol rtol
      (gradOutputPhase re d) d.perOutput 0 hpass]
    simp [gradOutputPhase, hdiff, hempty]
  · intro d m h
    rw [gradcheck] at h
    have htail := checkOutputs_false_error atol rtol
      (gradOutputPhase false d) m d.perOutput 0 h
    rw [gradOutputPhase] at htail
    by_cases hdiff : d.hasDiffOutputs = true
    · simp only [hdiff, if_true] at htail
      by_cases hempty : d.diffInputsEmpty = true
      · simp only [hempty, if_true] at htail
        cases htail
        rfl
      · rw [Bool.not_eq_true] at hempty
        rw [hempty] at htail
        simp only [Bool.false_eq_true, if_false] at htail
        cases checkGrads_false_no_error d.gradsInput with
        | inl h1 => rw [h1] at htail; cases htail
        | inr h2 => rw [h2] at htail; cases htail
    · rw [Bool.not_eq_true] at hdiff
      rw [hdiff] at htail
      simp only [Bool.false_eq_true, if_false] at htail
      cases htail

unseal Rat.mul Rat.add Rat.sub Rat.inv in
/-- Witness for C1: with `atol = 1/10`, `rtol = 0` and clean auxiliary
phases, a matching Jacobian pair passes and a pair violating the bound
makes `gradcheck` return `False` when `raise_exception=False`. -/
theorem C1_gradcheck_tolerance_witness :
    gradcheck false (1/10) 0
        ⟨[⟨true, true, true, [([1, 2], [1, 2])]⟩], true, false,
          [some ⟨true, true, true⟩]⟩ = Except.ok true
    ∧ gradcheck false (1/10) 0
        ⟨[⟨true, true, true, [([2], [0])]⟩], true, false,
          [some ⟨true, true, true⟩]⟩ = Except.ok false := by
  constructor
  · exact (C1_gradcheck_tolerance false (1/10) 0 _ (by decide)
      (by decide)).1.mpr (by decide)
  · exact ((C1_gradcheck_tolerance false (1/10) 0 _ (by decide)
      (by decide)).2 (by decide)).2 rfl

/-- Witness for C10: with no differentiable inputs recorded, `gradcheck`
raises the dedicated `RuntimeError` even with `raise_exception=False`. -/
theorem C10_no_tensors_requiring_grad_witness :
    gradcheck false (1/10) 0 ⟨[], true, true, []⟩ =
      Except.error GCMsg.noTensorsRequiringGrad :=
  (C10_no_tensors_requiring_grad (1/10) 0).1 false ⟨[], true, true, []⟩
    (by decide) rfl rfl

theorem list_set_getD_self {α : Type} (d : α) :
    ∀ (l : List α) (i : ℕ), l.set i (l.getD i d) = l := by
  intro l
  induction l with
  | nil => intro i; rfl
  | cons x xs ih =>
      intro i
      cases i with
      | zero => rfl
      | succ n => simpa [List.set, List.getD] using ih n

theorem list_getD_set_self {α : Type} (d v : α) :
    ∀ (l : List α) (i : ℕ), i < l.length → (l.set i v).getD i d = v := by
  intro l
  induction l with
  | nil => intro i h; cases h
  | cons x xs ih =>
      intro i h
      cases i with
      | zero => rfl
      | succ n => simpa [List.set, List.getD] using ih n (by simpa using h)

theorem list_set_of_le {α : Type} (v : α) :
    ∀ (l : List α) (i : ℕ), l.length ≤ i → l.set i v = l := by
  intro l
  induction l with
  | nil => intro i _; rfl
  | cons x xs ih =>
      intro i h
      cases i with
      | zero => cases h
      | succ n => simpa [List.set] using ih n (by simpa using h)

theorem setEntry_setEntry (xs : List (List ℚ)) (t i : ℕ) (a b : ℚ) :
    setEntry (setEntry xs t i a) t i b = setEntry xs t i b := by
  by_cases h : t < xs.length
  · unfold setEntry
    rw [list_getD_set_self [] ((xs.getD t []).set i a) xs t h,
      List.set_set, List.set_set]
  · push_neg at h
    unfold setEntry
    simp [list_set_of_le _ xs t h]

theorem setEntry_self (xs : List (List ℚ)) (t i : ℕ) :
    setEntry xs t i ((xs.getD t []).getD i 0) = xs := by
  unfold setEntry
  rw [list_set_getD_self 0 (xs.getD t []) i, list_set_getD_self [] xs t]

theorem perturbStep_state (fn : List (List ℚ) → List ℚ) (eps : ℚ)
    (xs : List (List ℚ)) (t i : ℕ) : (perturbStep fn eps xs t i).2 = xs := by
  unfold perturbStep
  simp only [setEntry_setEntry]
  exact setEntry_self xs t i

theorem perturbStep_col (fn : List (List ℚ) → List ℚ) (eps : ℚ)
    (xs : List (List ℚ)) (t i : ℕ) :
    (perturbStep fn eps xs t i).1 = pureColumn fn eps xs t i := by
  unfold perturbStep pureColumn
  simp only [setEntry_setEntry]

theorem runEntries_spec (fn : List (List ℚ) → List ℚ) (eps : ℚ) :
    ∀ (ixs : List (ℕ × ℕ)) (xs : List (List ℚ)),
      runEntries fn eps xs ixs =
        (ixs.map fun ti => pureColumn fn eps xs ti.1 ti.2, xs) := by
  intro ixs
  induction ixs with
  | nil => intro xs; rfl
  | cons ti rest ih =>
      intro xs
      rw [runEntries]
      simp only [perturbStep_state, perturbStep_col, ih xs, List.map_cons]

/-- C7: `get_numerical_jacobian` emits, for every entry of every input
tensor in iteration order, exactly the central-difference column
`(f(x + eps) - f(x - eps)) / (2 * eps)` obtained by perturbing that single
entry of the pristine input, and after the whole computation the input
tensors are exactly what they were before the call. -/
theorem C7_numerical_jacobian (fn : List (List ℚ) → List ℚ) (eps : ℚ)
    (xs : List (List ℚ)) :
    (get_numerical_jacobian fn eps xs).1 =
      ((entryIndices xs).map fun ti => pureColumn fn eps xs ti.1 ti.2)
    ∧ (get_numerical_jacobian fn eps xs).2 = xs := by
  unfold get_numerical_jacobian
  rw [runEntries_spec fn eps (entryIndices xs) xs]
  exact ⟨rfl, rfl⟩
